import Mathlib

/-!
Verification of the key lease-pool of `main.go` (package `main`).

The Go program keeps three shared structures inside `KeyManager`
(`main.go` lines 23-29): `keys` (a map from key id to `KeyMetadata`),
`available` (a slice of ids eligible for checkout) and `blocked`
(a map from id to the time it was blocked).  We embed this state
shallowly: Go maps become association lists over `String` keys,
`time.Time` becomes a `Nat` timestamp (seconds; the Go zero time is `0`),
and each operation becomes a pure function from the old state to the new
one.  The random draws of the program (`GenerateRandomKey`, `rand.Intn`)
are passed in as explicit parameters, and every call to `time.Now()`
inside one operation is modelled by a single `now` parameter.
-/

/-- Key identifiers are plain Go strings. -/
abbrev KeyId := String

/-- `KeyMetadata` of `main.go` lines 15-21.  The Go zero value of each
field (empty string, zero time, `false`) is the corresponding zero here. -/
structure KeyMetadata where
  Key : String
  CreationTime : Nat
  LastAccess : Nat
  IsBlocked : Bool
  BlockedAt : Nat
deriving DecidableEq

/-- The zero value `KeyMetadata{}` that Go map indexing returns for a
missing key. -/
def zeroMetadata : KeyMetadata :=
  { Key := "", CreationTime := 0, LastAccess := 0, IsBlocked := false, BlockedAt := 0 }

/-- Lookup in an association list, the model of Go map indexing. -/
def mlookup {V : Type} : List (KeyId × V) → KeyId → Option V
  | [], _ => none
  | p :: l, k => if p.1 = k then some p.2 else mlookup l k

/-- Deletion from an association list, the model of Go `delete(m, k)`. -/
def merase {V : Type} : List (KeyId × V) → KeyId → List (KeyId × V)
  | [], _ => []
  | p :: l, k => if p.1 = k then merase l k else p :: merase l k

/-- Insertion/overwrite, the model of Go `m[k] = v`. -/
def minsert {V : Type} (l : List (KeyId × V)) (k : KeyId) (v : V) : List (KeyId × V) :=
  (k, v) :: merase l k

/-- Go map indexing with the zero value for missing keys, as in
`metadata := km.keys[key]`. -/
def mlookupD (l : List (KeyId × KeyMetadata)) (k : KeyId) : KeyMetadata :=
  (mlookup l k).getD zeroMetadata

/-- An association list represents a Go map only when its keys are
duplicate-free. -/
def NodupKeys {V : Type} (l : List (KeyId × V)) : Prop :=
  (l.map Prod.fst).Nodup

/-- The `KeyManager` state of `main.go` lines 23-29 (the two mutexes are
modelled separately, see `locksHeld`). -/
structure KeyManager where
  keys : List (KeyId × KeyMetadata)
  available : List KeyId
  blocked : List (KeyId × Nat)
deriving DecidableEq

/-- `NewKeyManager` of `main.go` lines 31-36: empty maps, nil slice. -/
def NewKeyManager : KeyManager :=
  { keys := [], available := [], blocked := [] }

/-- `GenerateNewKey` of `main.go` lines 42-56.  `newKey` is the value the
program draws from `GenerateRandomKey()` and `now` is `time.Now()`.  The
record literal sets only `Key` and `CreationTime`; all other fields stay
at their zero values. -/
def GenerateNewKey (km : KeyManager) (newKey : KeyId) (now : Nat) : KeyId × KeyManager :=
  (newKey,
    { keys := minsert km.keys newKey
        { Key := newKey, CreationTime := now, LastAccess := 0, IsBlocked := false, BlockedAt := 0 },
      available := km.available ++ [newKey],
      blocked := km.blocked })

/-- `RetreiveAvailableKey` of `main.go` lines 58-79.  `index` is the value
drawn from `rand.Intn(len(km.available))` (the program only calls this
with `index < len(km.available)`).  Note the Go code builds a brand-new
`KeyMetadata` literal, so `CreationTime` becomes the zero value. -/
def RetreiveAvailableKey (km : KeyManager) (index now : Nat) : Except String (KeyId × KeyManager) :=
  if km.available.length = 0 then Except.error "no keys available"
  else
    let key := km.available.getD index ""
    Except.ok (key,
      { keys := minsert km.keys key
          { Key := key, CreationTime := 0, LastAccess := now, IsBlocked := true, BlockedAt := now },
        available := km.available.eraseIdx index,
        blocked := minsert km.blocked key now })

/-- The successful branch of `UnblockKey` (`main.go` lines 85-91): clear
`IsBlocked` on the looked-up record, delete from `blocked`, append to
`available`, write the record back. -/
def unblockState (km : KeyManager) (key : KeyId) : KeyManager :=
  { keys := minsert km.keys key { mlookupD km.keys key with IsBlocked := false },
    available := km.available ++ [key],
    blocked := merase km.blocked key }

/-- `UnblockKey` of `main.go` lines 81-95. -/
def UnblockKey (km : KeyManager) (key : KeyId) : Except String KeyManager :=
  match mlookup km.blocked key with
  | some _ => Except.ok (unblockState km key)
  | none => Except.error "key not blocked or not exist"

/-- The state change of `DeleteKey` (`main.go` lines 101-102): delete from
`keys` and from `blocked`; `available` is not touched. -/
def deleteKeyState (km : KeyManager) (key : KeyId) : KeyManager :=
  { keys := merase km.keys key,
    available := km.available,
    blocked := merase km.blocked key }

/-- `DeleteKey` of `main.go` lines 97-105; it always returns `nil`. -/
def DeleteKey (km : KeyManager) (key : KeyId) : Except String KeyManager :=
  Except.ok (deleteKeyState km key)

/-- `KeepAlive` of `main.go` lines 107-118. -/
def KeepAlive (km : KeyManager) (key : KeyId) (now : Nat) : Except String KeyManager :=
  match mlookup km.keys key with
  | some m => Except.ok { km with keys := minsert km.keys key { m with LastAccess := now } }
  | none => Except.error "key does not exist"

/-- `GetKeyInfo` of `main.go` lines 120-129. -/
def GetKeyInfo (km : KeyManager) (key : KeyId) : Except String KeyMetadata :=
  match mlookup km.keys key with
  | some m => Except.ok m
  | none => Except.error "key does not exist"

/-- One iteration of the block-timeout loop of `BackgroundTask`
(`main.go` lines 138-146) for the map entry `e = (key, blockedTime)`:
when `now - blockedTime > 20s`, clear `IsBlocked`, delete from `blocked`,
write the record back and append to `available`. -/
def blockPassStep (now : Nat) (km : KeyManager) (e : KeyId × Nat) : KeyManager :=
  if 20 < now - e.2 then
    { keys := minsert km.keys e.1 { mlookupD km.keys e.1 with IsBlocked := false },
      available := km.available ++ [e.1],
      blocked := merase km.blocked e.1 }
  else km

/-- The block-timeout pass of one `BackgroundTask` tick (`main.go` lines
136-147): the loop body applied to every entry of the `blocked` map. -/
def backgroundBlockPass (km : KeyManager) (now : Nat) : KeyManager :=
  km.blocked.foldl (blockPassStep now) km

/-- The idle-expiry loop of `BackgroundTask` (`main.go` lines 151-155)
over the remaining entries of the `keys` map.  The loop body calls
`km.DeleteKey(key)` (line 153) while `BackgroundTask` already holds
`km.mu` (locked at line 149), and `DeleteKey` starts by locking `km.mu`
again (line 98); `sync.Mutex` is not reentrant, so at the first entry
with `now - LastAccess > 1min` the goroutine blocks forever inside
`DeleteKey` before any deletion happens.  `none` models that deadlock:
the loop never finishes and never publishes a state.  Entries that are
not expired cause no mutation, so the outcome — `none` exactly when some
entry is expired, `some` of the unchanged state otherwise — does not
depend on the map iteration order. -/
def idleSweep (now : Nat) : List (KeyId × KeyMetadata) → KeyManager → Option KeyManager
  | [], km => some km
  | e :: l, km => if 60 < now - e.2.LastAccess then none else idleSweep now l km

/-- The idle-expiry pass of one `BackgroundTask` tick (`main.go` lines
149-156): it completes (leaving the state unchanged, the mutex released
at line 156) only when no key is expired; otherwise it self-deadlocks
inside `DeleteKey` and produces no state. -/
def backgroundIdlePass (km : KeyManager) (now : Nat) : Option KeyManager :=
  idleSweep now km.keys km

/-- The pool state after a checkout request: the new state on success,
the old state when `RetreiveAvailableKey` returned an error (the Go
method returns before mutating anything). -/
def checkoutState (km : KeyManager) (index now : Nat) : KeyManager :=
  match RetreiveAvailableKey km index now with
  | Except.ok p => p.2
  | Except.error _ => km

/-- The pool state after a release request (`UnblockKey`). -/
def releaseState (km : KeyManager) (key : KeyId) : KeyManager :=
  match UnblockKey km key with
  | Except.ok s => s
  | Except.error _ => km

/-- The pool state after a keep-alive request. -/
def keepAliveState (km : KeyManager) (key : KeyId) (now : Nat) : KeyManager :=
  match KeepAlive km key now with
  | Except.ok s => s
  | Except.error _ => km

/-- States reachable from `NewKeyManager` by the pool operations and the
two reclaimer passes, with the random draws of the program
(`GenerateRandomKey`, `rand.Intn`) left fully nondeterministic: `create`
may produce any string, including one that collides with an existing or
stale id. -/
inductive Reachable : KeyManager → Prop where
  | init : Reachable NewKeyManager
  | create (s : KeyManager) (k : KeyId) (now : Nat) (hs : Reachable s) :
      Reachable (GenerateNewKey s k now).2
  | checkout (s : KeyManager) (i now : Nat) (hs : Reachable s)
      (hi : i < s.available.length) : Reachable (checkoutState s i now)
  | release (s : KeyManager) (k : KeyId) (hs : Reachable s) :
      Reachable (releaseState s k)
  | remove (s : KeyManager) (k : KeyId) (hs : Reachable s) :
      Reachable (deleteKeyState s k)
  | keepalive (s : KeyManager) (k : KeyId) (now : Nat) (hs : Reachable s) :
      Reachable (keepAliveState s k now)
  | blockPass (s : KeyManager) (now : Nat) (hs : Reachable s) :
      Reachable (backgroundBlockPass s now)
  | idlePass (s u : KeyManager) (now : Nat) (hs : Reachable s)
      (h : backgroundIdlePass s now = some u) : Reachable u

/-- States reachable when every `create` draws a fresh id: one that is
neither queued in `available` nor present in `keys`.  This models the
collision-free executions that the random 63-bit id space makes
overwhelmingly likely. -/
inductive ReachableFresh : KeyManager → Prop where
  | init : ReachableFresh NewKeyManager
  | create (s : KeyManager) (k : KeyId) (now : Nat) (hs : ReachableFresh s)
      (h1 : k ∉ s.available) (h2 : mlookup s.keys k = none) :
      ReachableFresh (GenerateNewKey s k now).2
  | checkout (s : KeyManager) (i now : Nat) (hs : ReachableFresh s)
      (hi : i < s.available.length) : ReachableFresh (checkoutState s i now)
  | release (s : KeyManager) (k : KeyId) (hs : ReachableFresh s) :
      ReachableFresh (releaseState s k)
  | remove (s : KeyManager) (k : KeyId) (hs : ReachableFresh s) :
      ReachableFresh (deleteKeyState s k)
  | keepalive (s : KeyManager) (k : KeyId) (now : Nat) (hs : ReachableFresh s) :
      ReachableFresh (keepAliveState s k now)
  | blockPass (s : KeyManager) (now : Nat) (hs : ReachableFresh s) :
      ReachableFresh (backgroundBlockPass s now)
  | idlePass (s u : KeyManager) (now : Nat) (hs : ReachableFresh s)
      (h : backgroundIdlePass s now = some u) : ReachableFresh u

/-- The inductive state invariant of the pool: `available` is
duplicate-free, the `blocked` map is well-formed, and every blocked id is
absent from `available` and present in `keys`. -/
def PoolInv (s : KeyManager) : Prop :=
  s.available.Nodup ∧ NodupKeys s.blocked ∧
    ∀ k, mlookup s.blocked k ≠ none → k ∉ s.available ∧ mlookup s.keys k ≠ none

/-- The two mutexes of `KeyManager` (`main.go` lines 27-28). -/
inductive PoolLock where
  | mu
  | blockMu
deriving DecidableEq

/-- The routines that touch the pool state: the five operations, `info`,
and the two loops of `BackgroundTask`. -/
inductive PoolRoutine where
  | create
  | checkout
  | release
  | remove
  | keepAlive
  | info
  | blockTimeoutPass
  | idleExpiryPass
deriving DecidableEq

/-- The locks each routine holds while reading or mutating `keys`,
`available` and `blocked`, read off the source: every operation acquires
`km.mu` (lines 43, 59, 82, 98, 108, 121), the idle-expiry loop acquires
`km.mu` (line 149), but the block-timeout loop acquires only `km.blockMu`
(line 136). -/
def locksHeld : PoolRoutine → List PoolLock
  | PoolRoutine.blockTimeoutPass => [PoolLock.blockMu]
  | _ => [PoolLock.mu]

/-- The components of the shared pool state. -/
inductive PoolField where
  | records
  | availableQueue
  | blockedSet
deriving DecidableEq

/-- The pool-state fields each routine reads or writes, read off the
source: e.g. the block-timeout loop (lines 138-145) reads `blocked` and
`keys` and writes all three structures. -/
def fieldsAccessed : PoolRoutine → List PoolField
  | PoolRoutine.create => [PoolField.records, PoolField.availableQueue]
  | PoolRoutine.checkout => [PoolField.records, PoolField.availableQueue, PoolField.blockedSet]
  | PoolRoutine.release => [PoolField.records, PoolField.availableQueue, PoolField.blockedSet]
  | PoolRoutine.remove => [PoolField.records, PoolField.blockedSet]
  | PoolRoutine.keepAlive => [PoolField.records]
  | PoolRoutine.info => [PoolField.records]
  | PoolRoutine.blockTimeoutPass => [PoolField.records, PoolField.availableQueue, PoolField.blockedSet]
  | PoolRoutine.idleExpiryPass => [PoolField.records, PoolField.blockedSet]

/-- The pool after `create()` returned `"a"` at time 5. -/
def sCreateA : KeyManager := (GenerateNewKey NewKeyManager "a" 5).2

/-- `sCreateA` after `remove("a")`: the record is gone but `"a"` is still
queued in `available`. -/
def sStaleA : KeyManager := deleteKeyState sCreateA "a"

/-- `sStaleA` after a colliding `create()` that drew `"a"` again (time 6)
followed by a checkout that selected index 0 (time 7). -/
def sCollide : KeyManager := checkoutState ((GenerateNewKey sStaleA "a" 6).2) 0 7

/-- `sCreateA` after `checkout()` selected index 0 at time 6: `"a"` is
blocked. -/
def sBlockedA : KeyManager := checkoutState sCreateA 0 6

/-! ### Association-list lemmas -/

/-- Lookup after `merase`: the erased key is gone, others unchanged. -/
theorem mlookup_merase {V : Type} (l : List (KeyId × V)) (k j : KeyId) :
    mlookup (merase l k) j = if j = k then none else mlookup l j := by
  induction l with
  | nil => by_cases h : j = k <;> simp [merase, mlookup, h]
  | cons p l ih =>
    by_cases hp : p.1 = k
    · by_cases hj : j = k
      · subst hj
        simp [merase, mlookup, hp, ih]
      · have hpj : ¬ p.1 = j := by
          rw [hp]; exact fun hh => hj hh.symm
        have hkj : ¬ k = j := fun hh => hj hh.symm
        simp [merase, mlookup, hp, hj, hpj, hkj, ih]
    · by_cases hpj : p.1 = j
      · have hj : ¬ j = k := by
          rw [← hpj]; exact hp
        simp [merase, mlookup, hp, hpj, hj]
      · simp [merase, mlookup, hp, hpj, ih]

/-- The erased key is no longer found. -/
theorem mlookup_merase_self {V : Type} (l : List (KeyId × V)) (k : KeyId) :
    mlookup (merase l k) k = none := by
  simp [mlookup_merase]

/-- Other keys are unaffected by `merase`. -/
theorem mlookup_merase_ne {V : Type} (l : List (KeyId × V)) {k j : KeyId} (h : j ≠ k) :
    mlookup (merase l k) j = mlookup l j := by
  simp [mlookup_merase, h]

/-- Lookup after `minsert`: the inserted key maps to the new value,
others unchanged. -/
theorem mlookup_minsert {V : Type} (l : List (KeyId × V)) (k j : KeyId) (v : V) :
    mlookup (minsert l k v) j = if k = j then some v else mlookup l j := by
  by_cases h : k = j
  · simp [minsert, mlookup, h]
  · simp only [minsert, mlookup, if_neg h]
    rw [mlookup_merase]
    have hjk : ¬ j = k := fun hh => h hh.symm
    simp [hjk]

/-- A present entry is found (at possibly another value when keys repeat,
so we only conclude the lookup is not `none`). -/
theorem mlookup_ne_none_of_fst_mem {V : Type} {l : List (KeyId × V)} {e : KeyId × V}
    (h : e ∈ l) : mlookup l e.1 ≠ none := by
  induction l with
  | nil => exact absurd h (List.not_mem_nil e)
  | cons p l ih =>
    rcases List.mem_cons.mp h with he | hl
    · subst he
      simp [mlookup]
    · by_cases hp : p.1 = e.1 <;> simp [mlookup, hp, ih hl]

/-- A lookup fails exactly when the key is outside the key list. -/
theorem mlookup_eq_none_iff {V : Type} (l : List (KeyId × V)) (k : KeyId) :
    mlookup l k = none ↔ k ∉ l.map Prod.fst := by
  induction l with
  | nil => simp [mlookup]
  | cons p l ih =>
    by_cases hp : p.1 = k
    · simp [mlookup, hp, ih]
    · have hkp : ¬ k = p.1 := fun hh => hp hh.symm
      simp [mlookup, hp, hkp, ih]

/-- `merase` only drops entries. -/
theorem merase_sublist {V : Type} (l : List (KeyId × V)) (k : KeyId) :
    List.Sublist (merase l k) l := by
  induction l with
  | nil => simp [merase]
  | cons p l ih =>
    by_cases hp : p.1 = k
    · simp only [merase, if_pos hp]
      exact List.Sublist.cons p ih
    · simp only [merase, if_neg hp]
      exact List.Sublist.cons₂ p ih

/-- Erasing twice is the same as erasing once. -/
theorem merase_merase {V : Type} (l : List (KeyId × V)) (k : KeyId) :
    merase (merase l k) k = merase l k := by
  induction l with
  | nil => simp [merase]
  | cons p l ih =>
    by_cases hp : p.1 = k <;> simp [merase, hp, ih]

/-- `merase` keeps the keys duplicate-free. -/
theorem NodupKeys_merase {V : Type} {l : List (KeyId × V)} (k : KeyId)
    (h : NodupKeys l) : NodupKeys (merase l k) := by
  exact List.Nodup.sublist (List.Sublist.map Prod.fst (merase_sublist l k)) h

/-- `minsert` keeps the keys duplicate-free. -/
theorem NodupKeys_minsert {V : Type} {l : List (KeyId × V)} (k : KeyId) (v : V)
    (h : NodupKeys l) : NodupKeys (minsert l k v) := by
  unfold NodupKeys minsert
  rw [List.map_cons, List.nodup_cons]
  refine ⟨?_, NodupKeys_merase k h⟩
  exact (mlookup_eq_none_iff (merase l k) k).mp (mlookup_merase_self l k)

/-- Appending a fresh element keeps a list duplicate-free. -/
theorem nodup_append_singleton {α : Type} {l : List α} {a : α}
    (hl : l.Nodup) (ha : a ∉ l) : (l ++ [a]).Nodup := by
  refine List.nodup_middle.mpr ?_
  rw [List.nodup_cons]
  exact ⟨by simpa using ha, by simpa using hl⟩

/-- A selected element of a duplicate-free list does not survive the
erasure of its own index. -/
theorem get_not_mem_eraseIdx {α : Type} :
    ∀ (l : List α) (i : Nat) (hi : i < l.length), l.Nodup → l.get ⟨i, hi⟩ ∉ l.eraseIdx i
  | [], i, hi => by simp at hi
  | a :: l, 0, hi => by
    intro hnd
    simpa [List.eraseIdx] using (List.nodup_cons.mp hnd).1
  | a :: l, i + 1, hi => by
    intro hnd
    have hil : i < l.length := Nat.lt_of_succ_lt_succ hi
    have h1 : l.get ⟨i, hil⟩ ∉ l.eraseIdx i :=
      get_not_mem_eraseIdx l i hil (List.nodup_cons.mp hnd).2
    have hga : l.get ⟨i, hil⟩ ≠ a := by
      intro hh
      exact (List.nodup_cons.mp hnd).1 (hh ▸ List.get_mem l i hil)
    intro hmem
    rcases List.mem_cons.mp hmem with hh | hh
    · exact hga hh
    · exact h1 hh

/-! ### Preservation of the pool invariant -/

/-- The empty pool satisfies the invariant. -/
theorem PoolInv_new : PoolInv NewKeyManager := by
  refine ⟨List.nodup_nil, ?_, ?_⟩
  · simp [NewKeyManager, NodupKeys]
  · intro j hj
    simp [NewKeyManager, mlookup] at hj

/-- `GenerateNewKey` with a fresh id preserves the invariant. -/
theorem PoolInv_create (s : KeyManager) (k : KeyId) (now : Nat) (h : PoolInv s)
    (h1 : k ∉ s.available) (h2 : mlookup s.keys k = none) :
    PoolInv (GenerateNewKey s k now).2 := by
  obtain ⟨ha, hb, hc⟩ := h
  refine ⟨nodup_append_singleton ha h1, hb, ?_⟩
  intro j hj
  simp only [GenerateNewKey] at hj ⊢
  obtain ⟨hj1, hj2⟩ := hc j hj
  have hjk : j ≠ k := fun he => hj2 (he ▸ h2)
  constructor
  · intro hmem
    rcases List.mem_append.mp hmem with hm | hm
    · exact hj1 hm
    · exact hjk (List.mem_singleton.mp hm)
  · rw [mlookup_minsert]
    rw [if_neg (fun he : k = j => hjk he.symm)]
    exact hj2

/-- `deleteKeyState` preserves the invariant unconditionally. -/
theorem PoolInv_delete (s : KeyManager) (k : KeyId) (h : PoolInv s) :
    PoolInv (deleteKeyState s k) := by
  obtain ⟨ha, hb, hc⟩ := h
  refine ⟨ha, NodupKeys_merase k hb, ?_⟩
  intro j hj
  simp only [deleteKeyState] at hj ⊢
  rw [mlookup_merase] at hj
  by_cases hjk : j = k
  · simp [hjk] at hj
  · rw [if_neg hjk] at hj
    obtain ⟨hj1, hj2⟩ := hc j hj
    exact ⟨hj1, by rw [mlookup_merase_ne _ hjk]; exact hj2⟩

/-- `unblockState` on a blocked id preserves the invariant. -/
theorem PoolInv_unblock (s : KeyManager) (k : KeyId) (h : PoolInv s)
    (hk : mlookup s.blocked k ≠ none) : PoolInv (unblockState s k) := by
  obtain ⟨ha, hb, hc⟩ := h
  obtain ⟨hk1, hk2⟩ := hc k hk
  refine ⟨nodup_append_singleton ha hk1, NodupKeys_merase k hb, ?_⟩
  intro j hj
  simp only [unblockState] at hj ⊢
  rw [mlookup_merase] at hj
  by_cases hjk : j = k
  · simp [hjk] at hj
  · rw [if_neg hjk] at hj
    obtain ⟨hj1, hj2⟩ := hc j hj
    constructor
    · intro hmem
      rcases List.mem_append.mp hmem with hm | hm
      · exact hj1 hm
      · exact hjk (List.mem_singleton.mp hm)
    · rw [mlookup_minsert]
      by_cases hkj : k = j
      · simp [hkj]
      · rw [if_neg hkj]; exact hj2

/-- Reduction of a successful checkout: with a valid random index the
result state is exactly the mutation of `main.go` lines 66-77. -/
theorem checkoutState_eq (s : KeyManager) (i now : Nat) (hi : i < s.available.length) :
    checkoutState s i now =
      { keys := minsert s.keys (s.available.get ⟨i, hi⟩)
          { Key := s.available.get ⟨i, hi⟩, CreationTime := 0, LastAccess := now,
            IsBlocked := true, BlockedAt := now },
        available := s.available.eraseIdx i,
        blocked := minsert s.blocked (s.available.get ⟨i, hi⟩) now } ∧
    RetreiveAvailableKey s i now =
      Except.ok (s.available.get ⟨i, hi⟩, checkoutState s i now) := by
  have hlen : ¬ s.available.length = 0 := by omega
  have hok : RetreiveAvailableKey s i now =
      Except.ok (s.available.get ⟨i, hi⟩,
        { keys := minsert s.keys (s.available.get ⟨i, hi⟩)
            { Key := s.available.get ⟨i, hi⟩, CreationTime := 0, LastAccess := now,
              IsBlocked := true, BlockedAt := now },
          available := s.available.eraseIdx i,
          blocked := minsert s.blocked (s.available.get ⟨i, hi⟩) now }) := by
    simp only [RetreiveAvailableKey, if_neg hlen, List.getD_eq_get s.available "" hi]
  have hcs : checkoutState s i now =
      { keys := minsert s.keys (s.available.get ⟨i, hi⟩)
          { Key := s.available.get ⟨i, hi⟩, CreationTime := 0, LastAccess := now,
            IsBlocked := true, BlockedAt := now },
        available := s.available.eraseIdx i,
        blocked := minsert s.blocked (s.available.get ⟨i, hi⟩) now } := by
    simp only [checkoutState, hok]
  exact ⟨hcs, by rw [hok, hcs]⟩

/-- A checkout with a valid random index preserves the invariant. -/
theorem PoolInv_checkout (s : KeyManager) (i now : Nat) (h : PoolInv s)
    (hi : i < s.available.length) : PoolInv (checkoutState s i now) := by
  obtain ⟨ha, hb, hc⟩ := h
  obtain ⟨heq, -⟩ := checkoutState_eq s i now hi
  rw [heq]
  refine ⟨List.Nodup.sublist (List.eraseIdx_sublist _ _) ha,
    NodupKeys_minsert _ _ hb, ?_⟩
  intro j hj
  rw [mlookup_minsert] at hj
  by_cases hjk : s.available.get ⟨i, hi⟩ = j
  · rw [← hjk]
    constructor
    · exact get_not_mem_eraseIdx _ i hi ha
    · rw [mlookup_minsert]
      simp
  · rw [if_neg hjk] at hj
    obtain ⟨hj1, hj2⟩ := hc j hj
    constructor
    · intro hmem
      exact hj1 (List.Sublist.subset (List.eraseIdx_sublist _ _) hmem)
    · rw [mlookup_minsert, if_neg hjk]
      exact hj2

/-- A release preserves the invariant. -/
theorem PoolInv_release (s : KeyManager) (k : KeyId) (h : PoolInv s) :
    PoolInv (releaseState s k) := by
  cases hm : mlookup s.blocked k with
  | none => simpa [releaseState, UnblockKey, hm] using h
  | some t =>
    have he : releaseState s k = unblockState s k := by
      simp [releaseState, UnblockKey, hm]
    rw [he]
    exact PoolInv_unblock s k h (by rw [hm]; simp)

/-- A keep-alive preserves the invariant. -/
theorem PoolInv_keepalive (s : KeyManager) (k : KeyId) (now : Nat) (h : PoolInv s) :
    PoolInv (keepAliveState s k now) := by
  obtain ⟨ha, hb, hc⟩ := h
  cases hm : mlookup s.keys k with
  | none => simpa [keepAliveState, KeepAlive, hm] using ⟨ha, hb, hc⟩
  | some m =>
    refine ⟨by simpa [keepAliveState, KeepAlive, hm] using ha,
      by simpa [keepAliveState, KeepAlive, hm] using hb, ?_⟩
    intro j hj
    simp only [keepAliveState, KeepAlive, hm] at hj ⊢
    obtain ⟨hj1, hj2⟩ := hc j hj
    refine ⟨hj1, ?_⟩
    rw [mlookup_minsert]
    by_cases hkj : k = j
    · simp [hkj]
    · rw [if_neg hkj]
      exact hj2

/-- The loop body of the block-timeout pass is exactly the state change
of a successful `UnblockKey` when the entry has timed out, and a no-op
otherwise. -/
theorem blockPassStep_as_unblock (now : Nat) (u : KeyManager) (e : KeyId × Nat) :
    blockPassStep now u e = if 20 < now - e.2 then unblockState u e.1 else u := by
  by_cases hc : 20 < now - e.2 <;> simp [blockPassStep, unblockState, hc]

/-- Folding the block-timeout loop body over entries that are all present
in the current `blocked` map preserves the invariant. -/
theorem blockPass_fold (now : Nat) :
    ∀ (l : List (KeyId × Nat)) (s : KeyManager), PoolInv s →
      (l.map Prod.fst).Nodup → (∀ e, e ∈ l → mlookup s.blocked e.1 ≠ none) →
      PoolInv (l.foldl (blockPassStep now) s) := by
  intro l
  induction l with
  | nil => intro s h _ _; simpa using h
  | cons e l ih =>
    intro s h hnd hall
    rw [List.map_cons, List.nodup_cons] at hnd
    rw [List.foldl_cons, blockPassStep_as_unblock]
    by_cases hc : 20 < now - e.2
    · rw [if_pos hc]
      have hke : mlookup s.blocked e.1 ≠ none := hall e (List.mem_cons_self e l)
      refine ih _ (PoolInv_unblock s e.1 h hke) hnd.2 ?_
      intro f hf
      have hne : f.1 ≠ e.1 := by
        intro hcontra
        have : f.1 ∈ l.map Prod.fst := List.mem_map_of_mem Prod.fst hf
        rw [hcontra] at this
        exact hnd.1 this
      show mlookup (unblockState s e.1).blocked f.1 ≠ none
      simp only [unblockState]
      rw [mlookup_merase_ne _ hne]
      exact hall f (List.mem_cons_of_mem e hf)
    · rw [if_neg hc]
      exact ih s h hnd.2 (fun f hf => hall f (List.mem_cons_of_mem e hf))

/-- The block-timeout pass preserves the invariant. -/
theorem PoolInv_blockPass (s : KeyManager) (now : Nat) (h : PoolInv s) :
    PoolInv (backgroundBlockPass s now) :=
  blockPass_fold now s.blocked s h h.2.1 (fun e he => mlookup_ne_none_of_fst_mem he)

/-- The idle-expiry loop publishes a state only when it never hit an
expired entry, and that state is the unchanged input: no iteration
before the deadlock point mutates anything. -/
theorem idleSweep_some (now : Nat) :
    ∀ (l : List (KeyId × KeyMetadata)) (km u : KeyManager),
      idleSweep now l km = some u → u = km := by
  intro l
  induction l with
  | nil =>
    intro km u h
    exact (Option.some.inj h).symm
  | cons e l ih =>
    intro km u h
    by_cases hc : 60 < now - e.2.LastAccess
    · simp [idleSweep, hc] at h
    · simp only [idleSweep, if_neg hc] at h
      exact ih km u h

/-- An idle-expiry pass that completes preserves the invariant (it
leaves the state untouched). -/
theorem PoolInv_idlePass (s u : KeyManager) (now : Nat) (h : PoolInv s)
    (hu : backgroundIdlePass s now = some u) : PoolInv u := by
  rw [idleSweep_some now s.keys s u hu]
  exact h

/-- Every collision-free reachable state satisfies the invariant. -/
theorem PoolInv_reachable (s : KeyManager) (hs : ReachableFresh s) : PoolInv s := by
  induction hs with
  | init => exact PoolInv_new
  | create s k now hs h1 h2 ih => exact PoolInv_create s k now ih h1 h2
  | checkout s i now hs hi ih => exact PoolInv_checkout s i now ih hi
  | release s k hs ih => exact PoolInv_release s k ih
  | remove s k hs ih => exact PoolInv_delete s k ih
  | keepalive s k now hs ih => exact PoolInv_keepalive s k now ih
  | blockPass s now hs ih => exact PoolInv_blockPass s now ih
  | idlePass s u now hs h ih => exact PoolInv_idlePass s u now ih h

/-- The block-timeout fold is the fold of "apply the `UnblockKey`
mutation to every timed-out entry". -/
theorem blockPass_foldl_eq (now : Nat) :
    ∀ (l : List (KeyId × Nat)) (s : KeyManager),
      l.foldl (blockPassStep now) s =
        l.foldl (fun u e => if 20 < now - e.2 then unblockState u e.1 else u) s := by
  intro l
  induction l with
  | nil => intro s; rfl
  | cons e l ih =>
    intro s
    rw [List.foldl_cons, List.foldl_cons, blockPassStep_as_unblock]
    exact ih _

/-! ### Claim theorems -/

/-- Claim C1 (amended): in every state reachable with collision-free id
generation, every id in the `blocked` map is absent from `available`
(disjointness) and present in `keys` (`blockedSet.keys ⊆ records.keys`).
The other half of the original claim — `availableQueue ⊆ records.keys` —
is false on the code, see `pool_invariant_counterexample`. -/
theorem pool_state_invariant (s : KeyManager) (hs : ReachableFresh s) (k : KeyId)
    (hk : mlookup s.blocked k ≠ none) :
    k ∉ s.available ∧ mlookup s.keys k ≠ none :=
  (PoolInv_reachable s hs).2.2 k hk

/-- Claim C1, counterexample to the original statement: after
`create("a"); remove("a")` the id `"a"` is reachable, still queued in
`available`, yet absent from `keys`, so `availableQueue` is not a subset
of `records.keys`.  Moreover, after a colliding second `create("a")` and
a checkout, `"a"` is simultaneously in `available` and in `blocked`, so
even disjointness needs the collision-free hypothesis. -/
theorem pool_invariant_counterexample :
    Reachable sStaleA ∧ "a" ∈ sStaleA.available ∧ mlookup sStaleA.keys "a" = none ∧
      Reachable sCollide ∧ "a" ∈ sCollide.available ∧
      mlookup sCollide.blocked "a" ≠ none := by
  have h1 : Reachable sCreateA := Reachable.create NewKeyManager "a" 5 Reachable.init
  have h2 : Reachable sStaleA := Reachable.remove sCreateA "a" h1
  have h3 : Reachable (GenerateNewKey sStaleA "a" 6).2 :=
    Reachable.create sStaleA "a" 6 h2
  have h4 : Reachable sCollide :=
    Reachable.checkout (GenerateNewKey sStaleA "a" 6).2 0 7 h3 (by decide)
  exact ⟨h2, by decide, by decide, h4, by decide, by decide⟩

/-- Claim C1, witness: the invariant instantiated at the reachable state
`create("a") at 5; checkout at 6`, where `"a"` is blocked. -/
theorem pool_state_invariant_witness :
    "a" ∉ sBlockedA.available ∧ mlookup sBlockedA.keys "a" ≠ none := by
  have hr : ReachableFresh sBlockedA :=
    ReachableFresh.checkout sCreateA 0 6
      (ReachableFresh.create NewKeyManager "a" 5 ReachableFresh.init (by decide) rfl)
      (by decide)
  exact pool_state_invariant sBlockedA hr "a" (by decide)

/-- Claim C2 is false on the code (the spec itself flags the intent):
`RetreiveAvailableKey` builds a brand-new record literal (`main.go`
lines 70-75), so a checkout overwrites `CreationTime` with the zero
timestamp.  Concretely: `create("a")` at time 5 stores `CreationTime = 5`,
and the checkout at time 9 resets it to `0`. -/
theorem checkout_overwrites_createdAt :
    (mlookupD sCreateA.keys "a").CreationTime = 5 ∧
      RetreiveAvailableKey sCreateA 0 9 =
        Except.ok ("a", checkoutState sCreateA 0 9) ∧
      (mlookupD (checkoutState sCreateA 0 9).keys "a").CreationTime = 0 := by
  exact ⟨by decide, rfl, by decide⟩

/-- Claim C3 (confirmed): `DeleteKey` always succeeds (also for ids that
never existed), erases the id from `keys` and from `blocked`, leaves
`available` untouched (so a queued id stays queued), and is idempotent. -/
theorem delete_key_spec (s : KeyManager) (k : KeyId) :
    DeleteKey s k = Except.ok (deleteKeyState s k) ∧
      mlookup (deleteKeyState s k).keys k = none ∧
      mlookup (deleteKeyState s k).blocked k = none ∧
      (deleteKeyState s k).available = s.available ∧
      deleteKeyState (deleteKeyState s k) k = deleteKeyState s k := by
  refine ⟨rfl, mlookup_merase_self _ _, mlookup_merase_self _ _, rfl, ?_⟩
  simp [deleteKeyState, merase_merase]

/-- Claim C4 (confirmed, with the random selection modelled as a
nondeterministic index `i < len(available)`): a checkout fails with the
pool-exhausted error exactly when `available` is empty; otherwise it
returns the selected id, removes it from `available` (its occurrence at
index `i`; the whole id when the queue is duplicate-free), rewrites the
id's record with `LastAccess = now`, `IsBlocked = true`,
`BlockedAt = now`, inserts the id into `blocked` at `now`, and leaves
every other id's record unchanged. -/
theorem checkout_spec (s : KeyManager) (i now : Nat) :
    (RetreiveAvailableKey s i now = Except.error "no keys available" ↔
      s.available = []) ∧
    ∀ hi : i < s.available.length,
      RetreiveAvailableKey s i now =
        Except.ok (s.available.get ⟨i, hi⟩, checkoutState s i now) ∧
      (checkoutState s i now).available = s.available.eraseIdx i ∧
      (s.available.Nodup → s.available.get ⟨i, hi⟩ ∉ (checkoutState s i now).available) ∧
      (mlookupD (checkoutState s i now).keys (s.available.get ⟨i, hi⟩)).LastAccess = now ∧
      (mlookupD (checkoutState s i now).keys (s.available.get ⟨i, hi⟩)).IsBlocked = true ∧
      (mlookupD (checkoutState s i now).keys (s.available.get ⟨i, hi⟩)).BlockedAt = now ∧
      mlookup (checkoutState s i now).blocked (s.available.get ⟨i, hi⟩) = some now ∧
      ∀ j, j ≠ s.available.get ⟨i, hi⟩ →
        mlookup (checkoutState s i now).keys j = mlookup s.keys j := by
  constructor
  · constructor
    · intro he
      by_contra hne
      have hlen : ¬ s.available.length = 0 :=
        fun h0 => hne (List.length_eq_zero.mp h0)
      simp [RetreiveAvailableKey, hlen] at he
    · intro he
      simp [RetreiveAvailableKey, he]
  · intro hi
    obtain ⟨heq, hok⟩ := checkoutState_eq s i now hi
    refine ⟨hok, ?_, ?_, ?_, ?_, ?_, ?_, ?_⟩
    · rw [heq]
    · intro hnd
      rw [heq]
      exact get_not_mem_eraseIdx _ i hi hnd
    · rw [heq]
      simp [mlookupD, mlookup_minsert]
    · rw [heq]
      simp [mlookupD, mlookup_minsert]
    · rw [heq]
      simp [mlookupD, mlookup_minsert]
    · rw [heq]
      simp [mlookup_minsert]
    · intro j hj
      rw [heq]
      simp only
      rw [mlookup_minsert, if_neg (fun hh => hj hh.symm)]

/-- Claim C4, witness at the pool `create("a") at 5` with index 0 and
time 9. -/
theorem checkout_spec_witness :
    RetreiveAvailableKey sCreateA 0 9 = Except.ok ("a", checkoutState sCreateA 0 9) ∧
      (mlookupD (checkoutState sCreateA 0 9).keys "a").IsBlocked = true ∧
      (mlookupD (checkoutState sCreateA 0 9).keys "a").LastAccess = 9 ∧
      mlookup (checkoutState sCreateA 0 9).blocked "a" = some 9 := by
  have h := (checkout_spec sCreateA 0 9).2 (by decide)
  exact ⟨h.1, h.2.2.2.2.1, h.2.2.2.1, h.2.2.2.2.2.2.1⟩

/-- Claim C5 is right about the intent but the code deadlocks instead:
the idle-expiry loop calls `km.DeleteKey` (`main.go` line 153) while
`BackgroundTask` already holds `km.mu` (line 149), and `DeleteKey`
relocks `km.mu` (line 98), so the sweep wedges on the first expired key
and destroys nothing.  At the concrete failing input — `create("a")` at
time 5, sweep at time 100 — the idle-expiry condition holds for `"a"`,
yet the pass produces no completed state at all (so no record is
removed and no subsequent `info` can fail with the not-found error),
while a sweep over a pool with no expired key completes and leaves the
state unchanged. -/
theorem idle_pass_deadlocks :
    60 < 100 - (mlookupD sCreateA.keys "a").LastAccess ∧
      backgroundIdlePass sCreateA 100 = none ∧
      backgroundIdlePass NewKeyManager 100 = some NewKeyManager := by
  exact ⟨by decide, rfl, rfl⟩

/-- Claim C6 (confirmed): `UnblockKey` fails with the not-blocked error
exactly when the id is absent from `blocked` (whether the id never
existed or is already available); on success it writes back the record
with `IsBlocked := false` and all other fields unchanged, removes the id
from `blocked`, appends it to `available`, and an immediate second
release fails with the same error. -/
theorem release_spec (s : KeyManager) (k : KeyId) :
    (UnblockKey s k = Except.error "key not blocked or not exist" ↔
      mlookup s.blocked k = none) ∧
    (mlookup s.blocked k ≠ none →
      UnblockKey s k = Except.ok (unblockState s k) ∧
      mlookupD (unblockState s k).keys k = { mlookupD s.keys k with IsBlocked := false } ∧
      mlookup (unblockState s k).blocked k = none ∧
      (unblockState s k).available = s.available ++ [k] ∧
      UnblockKey (unblockState s k) k =
        Except.error "key not blocked or not exist") := by
  constructor
  · cases hm : mlookup s.blocked k with
    | none => simp [UnblockKey, hm]
    | some t => simp [UnblockKey, hm]
  · intro h
    cases hm : mlookup s.blocked k with
    | none => exact absurd hm h
    | some t =>
      refine ⟨by simp [UnblockKey, hm], ?_, ?_, rfl, ?_⟩
      · simp [unblockState, mlookupD, mlookup_minsert]
      · simp [unblockState, mlookup_merase_self]
      · simp [UnblockKey, unblockState, mlookup_merase_self]

/-- Claim C6, witness at the pool where `"a"` is blocked
(`create("a") at 5; checkout at 6`). -/
theorem release_spec_witness :
    UnblockKey sBlockedA "a" = Except.ok (unblockState sBlockedA "a") ∧
      (unblockState sBlockedA "a").available = sBlockedA.available ++ ["a"] ∧
      UnblockKey (unblockState sBlockedA "a") "a" =
        Except.error "key not blocked or not exist" := by
  have h := (release_spec sBlockedA "a").2 (by decide)
  exact ⟨h.1, h.2.2.2.1, h.2.2.2.2⟩

/-- Claim C7 (confirmed): for an entry `(k, t)` of `blocked` whose
`blockedAt` timestamp `t` is more than twenty seconds older than `now`,
the loop body of the block-timeout pass produces exactly the state a
successful `UnblockKey k` would produce (and `UnblockKey k` would indeed
succeed there); the whole pass is the fold of that per-key release
transition over the `blocked` entries. -/
theorem blockTimeout_matches_release (s : KeyManager) (k : KeyId) (t now : Nat)
    (hk : mlookup s.blocked k = some t) (hexp : 20 < now - t) :
    blockPassStep now s (k, t) = unblockState s k ∧
      UnblockKey s k = Except.ok (blockPassStep now s (k, t)) ∧
      backgroundBlockPass s now =
        s.blocked.foldl (fun u e => if 20 < now - e.2 then unblockState u e.1 else u) s := by
  have h1 : blockPassStep now s (k, t) = unblockState s k := by
    rw [blockPassStep_as_unblock]
    simp [hexp]
  refine ⟨h1, ?_, ?_⟩
  · rw [h1]
    simp [UnblockKey, hk]
  · exact blockPass_foldl_eq now s.blocked s

/-- Claim C7, witness: the blocked entry `("a", 6)` of the pool
`create("a") at 5; checkout at 6`, processed by the pass at time 30. -/
theorem blockTimeout_matches_release_witness :
    blockPassStep 30 sBlockedA ("a", 6) = unblockState sBlockedA "a" ∧
      UnblockKey sBlockedA "a" = Except.ok (blockPassStep 30 sBlockedA ("a", 6)) := by
  have h := blockTimeout_matches_release sBlockedA "a" 6 30 (by decide) (by decide)
  exact ⟨h.1, h.2.1⟩

/-- Claim C8 (amended): `GenerateNewKey` leaves `LastAccess` at the zero
timestamp, so a never-touched key already satisfies the idle-expiry
condition at any sweep with `sweep > 60`, no matter how recently the key
was created (`now` is unconstrained, it may even equal `sweep`); but
instead of destroying the key, that first sweep deadlocks inside
`DeleteKey` (which relocks the `mu` held since `main.go` line 149) and
never completes, so the key is not destroyed. -/
theorem fresh_key_first_sweep (s : KeyManager) (k : KeyId) (now sweep : Nat)
    (hs : 60 < sweep) :
    (mlookupD ((GenerateNewKey s k now).2).keys k).LastAccess = 0 ∧
      60 < sweep - (mlookupD ((GenerateNewKey s k now).2).keys k).LastAccess ∧
      backgroundIdlePass ((GenerateNewKey s k now).2) sweep = none := by
  have h0 : (mlookupD ((GenerateNewKey s k now).2).keys k).LastAccess = 0 := by
    simp [GenerateNewKey, mlookupD, mlookup_minsert]
  refine ⟨h0, ?_, ?_⟩
  · rw [h0]
    simpa using hs
  · simp only [GenerateNewKey, backgroundIdlePass, minsert, idleSweep]
    rw [if_pos (by simpa using hs)]

/-- Claim C8, counterexample to the original statement: the key `"b"`
created at time 50 already satisfies the idle-expiry condition at the
very next sweep (time 70), yet that sweep produces no completed state at
all — it wedges inside `DeleteKey` — so the key is not destroyed on that
sweep and no later `info` failure can be observed. -/
theorem fresh_key_sweep_counterexample :
    (mlookupD ((GenerateNewKey NewKeyManager "b" 50).2).keys "b").LastAccess = 0 ∧
      60 < 70 - (mlookupD ((GenerateNewKey NewKeyManager "b" 50).2).keys "b").LastAccess ∧
      backgroundIdlePass ((GenerateNewKey NewKeyManager "b" 50).2) 70 = none := by
  exact ⟨by decide, by decide, rfl⟩

/-- Claim C8, witness: the amended statement at the key `"c"` created at
time 50 and swept at time 70. -/
theorem fresh_key_first_sweep_witness :
    (mlookupD ((GenerateNewKey NewKeyManager "c" 50).2).keys "c").LastAccess = 0 ∧
      backgroundIdlePass ((GenerateNewKey NewKeyManager "c" 50).2) 70 = none := by
  have h := fresh_key_first_sweep NewKeyManager "c" 50 70 (by decide)
  exact ⟨h.1, h.2.2⟩

/-- Claim C9 (confirmed): in a state where the id at queue index `i` has
no record (as after `DeleteKey` on a still-queued id), a checkout that
draws index `i` returns that stale id and re-inserts a record for it with
`IsBlocked = true` and zero `CreationTime`; the removed key is thereby
resurrected and a subsequent `GetKeyInfo` succeeds. -/
theorem stale_id_resurrection (s : KeyManager) (i now : Nat) (hi : i < s.available.length)
    (hstale : mlookup s.keys (s.available.get ⟨i, hi⟩) = none) :
    RetreiveAvailableKey s i now =
        Except.ok (s.available.get ⟨i, hi⟩, checkoutState s i now) ∧
      mlookup (checkoutState s i now).keys (s.available.get ⟨i, hi⟩) =
        some { Key := s.available.get ⟨i, hi⟩, CreationTime := 0, LastAccess := now,
               IsBlocked := true, BlockedAt := now } ∧
      GetKeyInfo (checkoutState s i now) (s.available.get ⟨i, hi⟩) =
        Except.ok { Key := s.available.get ⟨i, hi⟩, CreationTime := 0, LastAccess := now,
                    IsBlocked := true, BlockedAt := now } ∧
      mlookup (checkoutState s i now).blocked (s.available.get ⟨i, hi⟩) = some now := by
  obtain ⟨heq, hok⟩ := checkoutState_eq s i now hi
  refine ⟨hok, ?_, ?_, ?_⟩
  · rw [heq]
    simp [mlookup_minsert]
  · simp [GetKeyInfo, heq, mlookup_minsert]
  · rw [heq]
    simp [mlookup_minsert]

/-- Claim C9, witness: `create("a") at 5; remove("a")` leaves `"a"` queued
without a record; the checkout at time 8 hands it out and resurrects it. -/
theorem stale_id_resurrection_witness :
    RetreiveAvailableKey sStaleA 0 8 = Except.ok ("a", checkoutState sStaleA 0 8) ∧
      GetKeyInfo (checkoutState sStaleA 0 8) "a" =
        Except.ok { Key := "a", CreationTime := 0, LastAccess := 8, IsBlocked := true,
                    BlockedAt := 8 } := by
  have h := stale_id_resurrection sStaleA 0 8 (by decide) (by decide)
  exact ⟨h.1, h.2.2.1⟩

/-- Claim C10 is false on the code: `checkout` reads and writes
`availableQueue` holding only `mu` (`main.go` line 59) while the
block-timeout pass reads and writes it holding only `blockMu` (line 136),
and neither lock appears in the other routine's lock set — so there is no
single mutual-exclusion scope guarding the pool state across all
routines. -/
theorem lock_scope_counterexample :
    PoolField.availableQueue ∈ fieldsAccessed PoolRoutine.checkout ∧
      PoolField.availableQueue ∈ fieldsAccessed PoolRoutine.blockTimeoutPass ∧
      PoolLock.mu ∉ locksHeld PoolRoutine.blockTimeoutPass ∧
      PoolLock.blockMu ∉ locksHeld PoolRoutine.checkout := by
  exact ⟨by decide, by decide, by decide, by decide⟩

/-- Claim C10 (amended): the five pool operations, `info`, and the
idle-expiry pass all guard their accesses with the single mutex `mu`,
but the block-timeout pass guards its accesses with the separate mutex
`blockMu` only — there is no one mutual-exclusion scope shared by every
routine that touches the pool state. -/
theorem lock_discipline (r : PoolRoutine) :
    locksHeld r =
      if r = PoolRoutine.blockTimeoutPass then [PoolLock.blockMu] else [PoolLock.mu] := by
  cases r <;> rfl
